import Mathlib

/-!
Verification of the FIFO lot-matching and withholding-tax reconciliation core
of the beancount-importers repository (IBKR and finpension importers).

Shallow embedding conventions:
* `Decimal` values are embedded as `ℚ` (the importers use exact decimal
  arithmetic via `beancount.core.number.D`; `D("")` and `D(None)` yield `0`,
  a string that fails to parse raises `ValueError`, modelled by `Option ℚ`
  fields on raw rows: `none` = unparsable, `some q` = parsed value).
* `datetime.date` is embedded as `Int` (only ordering and equality of dates
  are used by the core; `date.min` never matters because every transaction
  carries a date).
* Python's stable `list.sort(key=...)` is embedded as a stable insertion
  sort; a stable sort by a total preorder key is unique, so this is
  semantics-preserving.
* `str.replace` (used to strip the "Dividends " marker from narrations) is
  embedded as a fuel-indexed structural recursion over the character list,
  which agrees with Python for non-empty patterns.
* warnings (`warnings.warn` / `logging.warning`) are embedded as a returned
  list of structured `Warn` values; raising is impossible in the embedding
  exactly where the Python code cannot raise.
-/

/-- Calendar dates, embedded as integers ordered like dates. -/
abbrev Date := Int

/-- beancount `amount.Amount`: a number with a currency. -/
structure Amount where
  number : ℚ
  currency : String
deriving DecidableEq, Repr

/-- beancount `position.Cost` as used by the importers: a per-unit cost
number with a currency and an acquisition date (the label slot is always
`None` in the source and is omitted). -/
structure Cost where
  number : ℚ
  currency : String
  date : Date
deriving DecidableEq, Repr

/-- Transaction metadata as built by `data.new_metadata` plus the keys the
IBKR importer adds: the CSV line number, the `trans_id` key (absent on
foreign existing entries) and the document date (the source stores the
string `f"{year}-12-31-..."`; the embedding keeps the underlying date,
which determines that string). -/
structure TxnMeta where
  lineno : Nat
  transId : Option String
  docDate : Date
deriving DecidableEq, Repr

/-- One beancount posting: account, units, optional cost basis, optional
price annotation, and the `effective_date` posting-metadata entry used by
the tax-recalculation pass (all other posting slots are `None` in the
source). -/
structure Posting where
  account : String
  units : Amount
  cost : Option Cost
  price : Option Amount
  effectiveDate : Option Date
deriving DecidableEq, Repr

/-- One beancount transaction as the importers build them (payee and flag
are the constants `"Interactive Brokers"` / `"FinPension"` and `"*"` and
are omitted). -/
structure Transaction where
  meta : TxnMeta
  date : Date
  narration : String
  postings : List Posting
deriving DecidableEq, Repr

/-- A ledger entry: either a transaction or some other directive (the
source skips non-`data.Transaction` entries with `isinstance` checks). -/
inductive Entry where
  | txn (t : Transaction)
  | other
deriving DecidableEq, Repr

/-- An open purchase lot as the dict `{"id", "units", "cost", "date"}`
built by `build_fifo_postings` (the finpension variant has no `"id"` key,
modelled by `id = none`). -/
structure Lot where
  id : Option String
  units : Amount
  cost : Option Cost
  date : Date
deriving DecidableEq, Repr

/-- Structured warning/diagnostic records standing for the `warnings.warn`
and `logging.warning` calls of the source, carrying the data interpolated
into the corresponding message strings. -/
inductive Warn where
  | fileNotFound
  | parseError (lineno : Nat)
  | unsupportedType (typ : String) (lineno : Nat)
  | doubleMatch (security : String) (date : Date)
  | missingTax (security : String) (date : Date)
  | unmatchedTax (security : String) (date : Date) (value : Amount)
  | insufficientLots (remaining : Amount) (inventory sold : List Lot)
deriving DecidableEq, Repr

/-- Result of `sell_from_lot`: the post-sale inventory (consumed slots
already filtered out, as by `list(filter(None, inventory))`), the sold lot
fragments, the `sale_complete` flag, and the final value of the mutated
`sell_lot["units"]` (the remainder still unmatched, interpolated into the
warning when the sale is incomplete). -/
structure SellResult where
  inventory : List Lot
  sold : List Lot
  complete : Bool
  remaining : Amount
deriving DecidableEq, Repr

/-- The functions `Importer.sell_from_lot` (ibkr.py) and `sell_from_lot`
(finpension.py): consume a sale (negative `sellUnits`) against the open
inventory front to back.  For each lot, `leftover = lot.units + sellUnits`;
`leftover = 0` consumes the lot exactly and stops, `leftover > 0` splits
the lot (residual `leftover` stays, a fragment of the sale magnitude is
sold) and stops, `leftover < 0` consumes the lot whole and carries the
reduced sale forward.  The two Python variants differ only in `None`
guards that cannot fire in this embedding. -/
def sell_from_lot : List Lot → Amount → SellResult
  | [], s => ⟨[], [], false, s⟩
  | lot :: rest, s =>
    let leftover := lot.units.number + s.number
    if leftover = 0 then
      ⟨rest, [lot], true, s⟩
    else if 0 < leftover then
      ⟨{ lot with units := ⟨leftover, s.currency⟩ } :: rest,
       [{ lot with units := ⟨-s.number, s.currency⟩ }], true, s⟩
    else
      let r := sell_from_lot rest ⟨s.number + lot.units.number, s.currency⟩
      ⟨r.inventory, lot :: r.sold, r.complete, r.remaining⟩

/-- The `logging.warning` emitted by `sell_from_lot` when the loop ends
without completing the sale, carrying the unmatched remainder, the final
inventory and the sold lots. -/
def sell_from_lot_warn (inventory : List Lot) (s : Amount) : Option Warn :=
  let r := sell_from_lot inventory s
  if r.complete then none else some (.insufficientLots r.remaining r.inventory r.sold)

/-- Stable insertion of a lot into a date-sorted list (the inserted element
goes before the first element of equal or later date). -/
def insertByDate (x : Lot) : List Lot → List Lot
  | [] => [x]
  | y :: ys => if x.date ≤ y.date then x :: y :: ys else y :: insertByDate x ys

/-- The stable sort `lots.sort(key=lambda x: x.get("date") or date.min)`;
every lot in this embedding carries a date, so the `date.min` fallback is
inert. -/
def sortLotsByDate : List Lot → List Lot
  | [] => []
  | x :: xs => insertByDate x (sortLotsByDate xs)

/-- The loop `for sell in sells: inventory, _ = sell_from_lot(inventory,
sell)`: replay recorded sales against the inventory, keeping only the
resulting inventories. -/
def processSells (inventory : List Lot) : List Lot → List Lot
  | [] => inventory
  | s :: rest => processSells (sell_from_lot inventory s.units).inventory rest

/-- Configuration of the IBKR `Importer` (`__init__` arguments; the file
pattern is out of scope). -/
structure IbkrConfig where
  parentAccount : String
  incomeAccount : String
  taxAccount : String
  feesAccount : String
deriving DecidableEq, Repr

/-- The derived attribute `self.cash_account = parent_account + ":Cash"`. -/
def IbkrConfig.cashAccount (c : IbkrConfig) : String :=
  c.parentAccount ++ ":Cash"

/-- The derived attribute
`self.interests_account = income_account + ":Interests"`. -/
def IbkrConfig.interestsAccount (c : IbkrConfig) : String :=
  c.incomeAccount ++ ":Interests"

/-- The inventory-building scan of `build_fifo_postings`: walk the entry
list, skip non-transactions, entries without a `trans_id`, entries whose
`trans_id` is at-or-past the sale being processed (`trans_id >=
transaction_id`, string comparison) and `trans_id`s already processed;
classify every posting on the security account as a buy (positive units)
or a sell, in posting order.  Returns `(buys, sells)`. -/
def collectTrades (securityAccount transactionId : String) :
    List Entry → List String → List Lot × List Lot
  | [], _ => ([], [])
  | .other :: es, seen => collectTrades securityAccount transactionId es seen
  | .txn t :: es, seen =>
    match t.meta.transId with
    | none => collectTrades securityAccount transactionId es seen
    | some tid =>
      if transactionId ≤ tid ∨ tid ∈ seen then
        collectTrades securityAccount transactionId es seen
      else
        let lots := (t.postings.filter (fun p => p.account == securityAccount)).map
          (fun p => ({ id := some tid, units := p.units, cost := p.cost,
                       date := t.date } : Lot))
        let tailRes := collectTrades securityAccount transactionId es (tid :: seen)
        (lots.filter (fun l => decide (0 < l.units.number)) ++ tailRes.1,
         lots.filter (fun l => !decide (0 < l.units.number)) ++ tailRes.2)

/-- The open-lot inventory that `build_fifo_postings` reconstructs before
matching the current sale: collect buys and sells for the security, sort
each by date ascending (stable), then replay the recorded sells. -/
def ibkrInventory (cfg : IbkrConfig) (entries : List Entry)
    (transactionId security : String) : List Lot :=
  let securityAccount := cfg.parentAccount ++ ":" ++ security
  let trades := collectTrades securityAccount transactionId entries []
  processSells (sortLotsByDate trades.1) (sortLotsByDate trades.2)

/-- The sold lot fragments produced for the current sale by
`build_fifo_postings` (the call `sell_from_lot(inventory, {"id": ...,
"units": shares, "cost": None, "date": lot_date})`; only the units of that
dict are ever read). -/
def ibkrSoldLots (cfg : IbkrConfig) (entries : List Entry)
    (transactionId : String) (lotDate : Date) (shares : Amount) : List Lot :=
  (sell_from_lot (ibkrInventory cfg entries transactionId shares.currency) shares).sold

/-- The PnL accumulation loop shared by both importers: start from an
initial value and add `cost.number * units.number` for every lot with a
known cost basis. -/
def pnlFold : List Lot → ℚ → ℚ
  | [], acc => acc
  | lot :: rest, acc =>
    pnlFold rest
      (match lot.cost with
       | some c => acc + c.number * lot.units.number
       | none => acc)

/-- IBKR `Importer.build_fifo_postings`: rebuild the inventory,
match the sale FIFO, accumulate PnL starting at `-proceeds`, and emit the
cash posting (`proceeds + commission`), the PnL posting, a fees posting
when the commission is non-zero, and one security posting per sold lot
fragment (negated units, original cost basis, sale price annotation). -/
def build_fifo_postings (cfg : IbkrConfig) (entries : List Entry)
    (transactionId : String) (lotDate : Date) (shares proceeds price commission : Amount) :
    List Posting :=
  let security := shares.currency
  let securityAccount := cfg.parentAccount ++ ":" ++ security
  let pnlAccount := cfg.incomeAccount ++ ":" ++ security ++ ":PnL"
  let soldLots := ibkrSoldLots cfg entries transactionId lotDate shares
  let pnlCashFlow := pnlFold soldLots (-proceeds.number)
  let base : List Posting :=
    [⟨cfg.cashAccount, ⟨proceeds.number + commission.number, proceeds.currency⟩,
      none, none, none⟩,
     ⟨pnlAccount, ⟨pnlCashFlow, proceeds.currency⟩, none, none, none⟩]
  let withFees :=
    if commission.number ≠ 0 then
      base ++ [⟨cfg.feesAccount, ⟨-commission.number, commission.currency⟩,
               none, none, none⟩]
    else base
  withFees ++ soldLots.map
    (fun lot => ⟨securityAccount, ⟨-lot.units.number, lot.units.currency⟩,
                 lot.cost, some price, none⟩)

/-- The entry scan of finpension's `build_sell_postings`: keep transactions
dated at or before the sale date, and classify every posting on the
security account as a buy or a sell (there is no `trans_id` dedup in this
variant). -/
def fpCollect (secAccount : String) (lotDate : Date) :
    List Entry → List Lot × List Lot
  | [] => ([], [])
  | .other :: es => fpCollect secAccount lotDate es
  | .txn t :: es =>
    let tailRes := fpCollect secAccount lotDate es
    if lotDate < t.date then tailRes
    else
      let lots := (t.postings.filter (fun p => p.account == secAccount)).map
        (fun p => ({ id := none, units := p.units, cost := p.cost,
                     date := t.date } : Lot))
      (lots.filter (fun l => decide (0 < l.units.number)) ++ tailRes.1,
       lots.filter (fun l => !decide (0 < l.units.number)) ++ tailRes.2)

/-- The open-lot inventory reconstructed by finpension's
`build_sell_postings`. -/
def fpInventory (entries : List Entry) (secAccount : String) (lotDate : Date) :
    List Lot :=
  let trades := fpCollect secAccount lotDate entries
  processSells (sortLotsByDate trades.1) (sortLotsByDate trades.2)

/-- The sold lot fragments produced for the current sale by finpension's
`build_sell_postings`. -/
def fpSoldLots (entries : List Entry) (secAccount : String) (lotDate : Date)
    (shares : Amount) : List Lot :=
  (sell_from_lot (fpInventory entries secAccount lotDate) shares).sold

/-- Finpension `build_sell_postings`: rebuild the inventory, match the
sale FIFO, accumulate PnL starting at `-proceeds` (converted through the fx
rate when one is present, in which case the unit price is converted too and
the PnL currency follows the fx quote currency, else `"CHF"`), and emit the
cash posting (price-annotated with the fx rate), the PnL posting, and one
security posting per sold lot fragment.  The unused `currency` parameter of
the source is omitted. -/
def build_sell_postings (entries : List Entry)
    (secAccount cashAccount pnlAccount : String) (lotDate : Date)
    (shares price proceeds : Amount) (fxRate : Option Amount) : List Posting :=
  let soldLots := fpSoldLots entries secAccount lotDate shares
  let conv :=
    match fxRate with
    | some fx => (-proceeds.number * fx.number, fx.currency,
                  (⟨price.number * fx.number, fx.currency⟩ : Amount))
    | none => (-proceeds.number, "CHF", price)
  let pnlCashFlow := pnlFold soldLots conv.1
  [⟨cashAccount, proceeds, none, fxRate, none⟩,
   ⟨pnlAccount, ⟨pnlCashFlow, conv.2.1⟩, none, none, none⟩]
  ++ soldLots.map
    (fun lot => ⟨secAccount, ⟨-lot.units.number, lot.units.currency⟩,
                 lot.cost, some conv.2.2, none⟩)

/-- Valuation of a posting in the sale's valuation currency, following the
attached annotations: a posting carrying a cost basis is valued at cost,
a posting carrying only a price annotation is valued at that price, and a
bare posting stands in the valuation currency already (factor one). -/
def postingValue (p : Posting) : ℚ :=
  match p.cost with
  | some c => p.units.number * c.number
  | none =>
    match p.price with
    | some pr => p.units.number * pr.number
    | none => p.units.number

-- Scratch checks on small inputs.
example :
    (sell_from_lot [⟨none, ⟨5, "VT"⟩, none, 1⟩] ⟨-3, "VT"⟩).inventory
      = [⟨none, ⟨2, "VT"⟩, none, 1⟩] := by norm_num [sell_from_lot]

example :
    (sell_from_lot [⟨none, ⟨5, "VT"⟩, none, 1⟩, ⟨none, ⟨4, "VT"⟩, none, 2⟩] ⟨-7, "VT"⟩).sold
      = [⟨none, ⟨5, "VT"⟩, none, 1⟩, ⟨none, ⟨2, "VT"⟩, none, 2⟩] := by
  norm_num [sell_from_lot]

example : (sell_from_lot [⟨none, ⟨6, "VT"⟩, none, 1⟩] ⟨-10, "VT"⟩).complete = false := by
  norm_num [sell_from_lot]

/-! ### Basic lemmas about the FIFO matcher -/

/-- Unfolding `sell_from_lot` when the first lot covers the sale exactly. -/
theorem sell_from_lot_exact (lot : Lot) (rest : List Lot) (s : Amount)
    (h : lot.units.number + s.number = 0) :
    sell_from_lot (lot :: rest) s = ⟨rest, [lot], true, s⟩ := by
  simp [sell_from_lot, h]

/-- Unfolding `sell_from_lot` when the first lot strictly covers the sale. -/
theorem sell_from_lot_split (lot : Lot) (rest : List Lot) (s : Amount)
    (h : 0 < lot.units.number + s.number) :
    sell_from_lot (lot :: rest) s =
      ⟨{ lot with units := ⟨lot.units.number + s.number, s.currency⟩ } :: rest,
       [{ lot with units := ⟨-s.number, s.currency⟩ }], true, s⟩ := by
  simp [sell_from_lot, ne_of_gt h, h]

/-- Unfolding `sell_from_lot` when the first lot is consumed whole and the
sale continues. -/
theorem sell_from_lot_consume (lot : Lot) (rest : List Lot) (s : Amount)
    (h : lot.units.number + s.number < 0) :
    sell_from_lot (lot :: rest) s =
      (let r := sell_from_lot rest ⟨s.number + lot.units.number, s.currency⟩
       ⟨r.inventory, lot :: r.sold, r.complete, r.remaining⟩) := by
  simp [sell_from_lot, ne_of_lt h, not_lt.mpr (le_of_lt h)]

/-- The value `cost.number * units.number` a lot contributes to the PnL
accumulator, when the lot has a known cost basis. -/
def lotCostValue (lot : Lot) : Option ℚ :=
  lot.cost.map (fun c => c.number * lot.units.number)

/-- Total cost basis recovered from a list of sold lots (only lots with a
known cost basis contribute, exactly as in the source loops). -/
def costedSum (l : List Lot) : ℚ :=
  (l.filterMap lotCostValue).sum

/-- The PnL accumulation loop computes its initial value plus the summed
cost contributions of the costed lots. -/
theorem pnlFold_eq (l : List Lot) (init : ℚ) :
    pnlFold l init = init + costedSum l := by
  induction l generalizing init with
  | nil => simp [pnlFold, costedSum]
  | cons x xs ih =>
    cases hx : x.cost with
    | none =>
      simp [pnlFold, hx, ih, costedSum, lotCostValue, List.filterMap_cons]
    | some c =>
      simp [pnlFold, hx, ih, costedSum, lotCostValue, List.filterMap_cons]
      ring

/-- Value of the per-lot security postings: when every sold lot carries a
cost basis, their at-cost values sum to the negated recovered cost. -/
theorem sec_postings_value_sum (acct : String) (pr : Amount) (l : List Lot)
    (h : ∀ x ∈ l, x.cost.isSome) :
    ((l.map (fun lot =>
        (⟨acct, ⟨-lot.units.number, lot.units.currency⟩, lot.cost, some pr, none⟩ :
          Posting))).map postingValue).sum
      = -(costedSum l) := by
  induction l with
  | nil => simp [costedSum]
  | cons x xs ih =>
    obtain ⟨c, hc⟩ := Option.isSome_iff_exists.mp (h x (List.mem_cons_self x xs))
    have ihx := ih (fun y hy => h y (List.mem_cons_of_mem x hy))
    simp [costedSum, lotCostValue, List.filterMap_cons, hc, postingValue, ihx,
      costedSum, lotCostValue] at *
    rw [ihx]
    ring

/-! ### Claims about the FIFO matcher (C2, C5, C8) -/

/-- Claim C5: when `sell_from_lot` reaches a lot whose quantity strictly exceeds
the remaining sale magnitude (`leftover > 0`), exactly one residual lot
stays in the inventory for that position, with quantity
`original_quantity - sold_quantity`; the emitted sold fragment has exactly
the sale's magnitude and carries the lot's original cost basis (and id and
date) unchanged; matching completes there, leaving all later lots
untouched. -/
theorem lot_split_residual_correct (lot : Lot) (rest : List Lot) (s : Amount)
    (hs : s.number < 0) (h : -s.number < lot.units.number) :
    (sell_from_lot (lot :: rest) s).inventory
        = { lot with units := ⟨lot.units.number - -s.number, s.currency⟩ } :: rest ∧
    (sell_from_lot (lot :: rest) s).sold
        = [{ lot with units := ⟨-s.number, s.currency⟩ }] ∧
    (∀ f ∈ (sell_from_lot (lot :: rest) s).sold,
        f.cost = lot.cost ∧ f.units.number = -s.number) ∧
    (sell_from_lot (lot :: rest) s).complete = true := by
  have hpos : 0 < lot.units.number + s.number := by linarith
  rw [sell_from_lot_split lot rest s hpos]
  refine ⟨?_, rfl, ?_, rfl⟩
  · have : lot.units.number + s.number = lot.units.number - -s.number := by ring
    rw [this]
  · intro f hf
    simp only [List.mem_singleton] at hf
    subst hf
    exact ⟨rfl, rfl⟩

/-- Witness for claim C5: a concrete split (a lot of 5 units at cost 10, sale of 3). -/
theorem lot_split_residual_correct_witness :
    (sell_from_lot [⟨none, ⟨5, "VT"⟩, some ⟨10, "USD", 1⟩, 1⟩] ⟨-3, "VT"⟩).inventory
        = [⟨none, ⟨2, "VT"⟩, some ⟨10, "USD", 1⟩, 1⟩] ∧
    (sell_from_lot [⟨none, ⟨5, "VT"⟩, some ⟨10, "USD", 1⟩, 1⟩] ⟨-3, "VT"⟩).sold
        = [⟨none, ⟨3, "VT"⟩, some ⟨10, "USD", 1⟩, 1⟩] := by
  have h := lot_split_residual_correct ⟨none, ⟨5, "VT"⟩, some ⟨10, "USD", 1⟩, 1⟩ []
    ⟨-3, "VT"⟩ (by norm_num) (by norm_num)
  obtain ⟨h1, h2, -, -⟩ := h
  norm_num at h1 h2
  exact ⟨h1, h2⟩

/-- Sum of a list of positive rationals is nonnegative (helper). -/
theorem sum_units_nonneg (l : List Lot) (h : ∀ x ∈ l, 0 < x.units.number) :
    0 ≤ (l.map (fun x => x.units.number)).sum := by
  refine List.sum_nonneg ?_
  intro q hq
  obtain ⟨x, hx, rfl⟩ := List.mem_map.mp hq
  exact le_of_lt (h x hx)

/-- Claim C8: when the open inventory cannot cover the requested sale, the
matcher consumes every available lot, ends with `sale_complete = False`
(hence the non-fatal `logging.warning` carrying the unmatched remainder
and the inventory state is emitted), returns everything that was available
as sold, and — being a total function — raises nothing. -/
theorem insufficient_inventory_warns (inv : List Lot) (s : Amount)
    (hpos : ∀ l ∈ inv, 0 < l.units.number) (hs : s.number < 0)
    (hinsuf : (inv.map (fun l => l.units.number)).sum < -s.number) :
    (sell_from_lot inv s).complete = false ∧
    (sell_from_lot inv s).sold = inv ∧
    (sell_from_lot inv s).inventory = [] ∧
    (sell_from_lot_warn inv s).isSome = true := by
  have main : (sell_from_lot inv s).complete = false ∧
      (sell_from_lot inv s).sold = inv ∧ (sell_from_lot inv s).inventory = [] := by
    induction inv generalizing s with
    | nil => exact ⟨rfl, rfl, rfl⟩
    | cons lot rest ih =>
      have hrest : 0 ≤ (rest.map (fun x => x.units.number)).sum :=
        sum_units_nonneg rest (fun x hx => hpos x (List.mem_cons_of_mem lot hx))
      have hsum : lot.units.number + (rest.map (fun x => x.units.number)).sum
          < -s.number := by
        simpa using hinsuf
      have hneg : lot.units.number + s.number < 0 := by linarith
      rw [sell_from_lot_consume lot rest s hneg]
      have ih2 := ih (s := ⟨s.number + lot.units.number, s.currency⟩)
        (fun x hx => hpos x (List.mem_cons_of_mem lot hx))
        (by simp only; linarith)
        (by simp only; linarith)
      exact ⟨ih2.1, by simp [ih2.2.1], ih2.2.2⟩
  refine ⟨main.1, main.2.1, main.2.2, ?_⟩
  simp [sell_from_lot_warn, main.1]

/-- Witness for claim C8: selling 10 units when only 6 are held (spec scenario). -/
theorem insufficient_inventory_warns_witness :
    (sell_from_lot [⟨none, ⟨6, "VT"⟩, none, 1⟩] ⟨-10, "VT"⟩).complete = false ∧
    (sell_from_lot [⟨none, ⟨6, "VT"⟩, none, 1⟩] ⟨-10, "VT"⟩).sold
        = [⟨none, ⟨6, "VT"⟩, none, 1⟩] ∧
    (sell_from_lot [⟨none, ⟨6, "VT"⟩, none, 1⟩] ⟨-10, "VT"⟩).inventory = [] ∧
    (sell_from_lot_warn [⟨none, ⟨6, "VT"⟩, none, 1⟩] ⟨-10, "VT"⟩).isSome = true := by
  refine insufficient_inventory_warns [⟨none, ⟨6, "VT"⟩, none, 1⟩] ⟨-10, "VT"⟩ ?_
    (by norm_num) (by norm_num)
  intro l hl
  simp only [List.mem_singleton] at hl
  subst hl
  norm_num

/-- Claim C2: on an inventory of three lots sorted by acquisition date ascending
(dates D1 < D2 < D3, positive quantities Q1, Q2, Q3), the matcher consumes
strictly oldest-first.  The stated list is exactly what
`sortLotsByDate` produces for it; a sale of magnitude at most Q1 consumes
only from the D1 lot (all sold fragments carry D1's date, id and cost, and
their quantities sum to the sale magnitude) while the D2 and D3 lots stay
in inventory; a sale of magnitude in (Q1, Q1+Q2] consumes all of the D1
lot plus a fragment of the D2 lot and never touches the D3 lot. -/
theorem fifo_consumes_oldest_first (l1 l2 l3 : Lot) (s : Amount)
    (hd12 : l1.date < l2.date) (hd23 : l2.date < l3.date)
    (hq1 : 0 < l1.units.number) (hq2 : 0 < l2.units.number)
    (hq3 : 0 < l3.units.number) (hs : s.number < 0) :
    sortLotsByDate [l1, l2, l3] = [l1, l2, l3] ∧
    (-s.number ≤ l1.units.number →
      (∀ f ∈ (sell_from_lot [l1, l2, l3] s).sold,
          f.id = l1.id ∧ f.date = l1.date ∧ f.cost = l1.cost) ∧
      ((sell_from_lot [l1, l2, l3] s).sold.map (fun f => f.units.number)).sum
          = -s.number ∧
      l2 ∈ (sell_from_lot [l1, l2, l3] s).inventory ∧
      l3 ∈ (sell_from_lot [l1, l2, l3] s).inventory) ∧
    (l1.units.number < -s.number → -s.number ≤ l1.units.number + l2.units.number →
      (∃ f, (sell_from_lot [l1, l2, l3] s).sold = [l1, f] ∧
        f.id = l2.id ∧ f.date = l2.date ∧ f.cost = l2.cost ∧
        f.units.number = -s.number - l1.units.number) ∧
      l3 ∈ (sell_from_lot [l1, l2, l3] s).inventory ∧
      (∀ g ∈ (sell_from_lot [l1, l2, l3] s).sold, g.date ≠ l3.date)) := by
  refine ⟨?_, ?_, ?_⟩
  · simp [sortLotsByDate, insertByDate, le_of_lt hd12, le_of_lt hd23,
      le_of_lt (lt_trans hd12 hd23)]
  · intro hle
    rcases eq_or_lt_of_le hle with heq | hlt
    · have h0 : l1.units.number + s.number = 0 := by linarith
      rw [sell_from_lot_exact l1 [l2, l3] s h0]
      refine ⟨?_, ?_, ?_, ?_⟩
      · intro f hf
        simp only [List.mem_singleton] at hf
        subst hf
        exact ⟨rfl, rfl, rfl⟩
      · simp only [List.map_cons, List.map_nil, List.sum_cons, List.sum_nil,
          add_zero]
        linarith
      · simp
      · simp
    · have h0 : 0 < l1.units.number + s.number := by linarith
      rw [sell_from_lot_split l1 [l2, l3] s h0]
      refine ⟨?_, ?_, ?_, ?_⟩
      · intro f hf
        simp only [List.mem_singleton] at hf
        subst hf
        exact ⟨rfl, rfl, rfl⟩
      · simp
      · simp
      · simp
  · intro hgt hle2
    have hneg : l1.units.number + s.number < 0 := by linarith
    rw [sell_from_lot_consume l1 [l2, l3] s hneg]
    simp only
    set s2 : Amount := ⟨s.number + l1.units.number, s.currency⟩ with hs2
    have hs2n : s2.number = s.number + l1.units.number := rfl
    rcases eq_or_lt_of_le hle2 with heq | hlt
    · have h0 : l2.units.number + s2.number = 0 := by
        rw [hs2n]; linarith
      rw [sell_from_lot_exact l2 [l3] s2 h0]
      refine ⟨⟨l2, rfl, rfl, rfl, rfl, by linarith⟩, by simp, ?_⟩
      intro g hg
      simp only [List.mem_cons, List.mem_singleton, List.not_mem_nil] at hg
      rcases hg with rfl | rfl | h
      · exact ne_of_lt (lt_trans hd12 hd23)
      · exact ne_of_lt hd23
      · exact absurd h (by simp)
    · have h0 : 0 < l2.units.number + s2.number := by
        rw [hs2n]; linarith
      rw [sell_from_lot_split l2 [l3] s2 h0]
      refine ⟨⟨{ l2 with units := ⟨-s2.number, s2.currency⟩ }, rfl, rfl, rfl, rfl, ?_⟩,
        by simp, ?_⟩
      · simp only [hs2n]
        ring
      · intro g hg
        simp only [List.mem_cons, List.mem_singleton, List.not_mem_nil] at hg
        rcases hg with rfl | rfl | h
        · exact ne_of_lt (lt_trans hd12 hd23)
        · exact ne_of_lt hd23
        · exact absurd h (by simp)

/-- Witness for claim C2: lots of 5, 5, 5 units on days 1 < 2 < 3; a sale of 3 stays
within the first lot, a sale of 7 reaches exactly into the second. -/
theorem fifo_consumes_oldest_first_witness :
    ((sell_from_lot [⟨none, ⟨5, "VT"⟩, none, 1⟩, ⟨none, ⟨5, "VT"⟩, none, 2⟩,
        ⟨none, ⟨5, "VT"⟩, none, 3⟩] ⟨-3, "VT"⟩).sold.map
          (fun f => f.units.number)).sum = 3 ∧
    (⟨none, ⟨5, "VT"⟩, none, 3⟩ : Lot) ∈
      (sell_from_lot [⟨none, ⟨5, "VT"⟩, none, 1⟩, ⟨none, ⟨5, "VT"⟩, none, 2⟩,
        ⟨none, ⟨5, "VT"⟩, none, 3⟩] ⟨-3, "VT"⟩).inventory ∧
    (∀ g ∈ (sell_from_lot [⟨none, ⟨5, "VT"⟩, none, 1⟩, ⟨none, ⟨5, "VT"⟩, none, 2⟩,
        ⟨none, ⟨5, "VT"⟩, none, 3⟩] ⟨-7, "VT"⟩).sold, g.date ≠ 3) := by
  have h3 := fifo_consumes_oldest_first ⟨none, ⟨5, "VT"⟩, none, 1⟩
    ⟨none, ⟨5, "VT"⟩, none, 2⟩ ⟨none, ⟨5, "VT"⟩, none, 3⟩ ⟨-3, "VT"⟩
    (by norm_num) (by norm_num) (by norm_num) (by norm_num) (by norm_num)
    (by norm_num)
  have h7 := fifo_consumes_oldest_first ⟨none, ⟨5, "VT"⟩, none, 1⟩
    ⟨none, ⟨5, "VT"⟩, none, 2⟩ ⟨none, ⟨5, "VT"⟩, none, 3⟩ ⟨-7, "VT"⟩
    (by norm_num) (by norm_num) (by norm_num) (by norm_num) (by norm_num)
    (by norm_num)
  obtain ⟨-, hcase1, -⟩ := h3
  obtain ⟨-, -, hcase2⟩ := h7
  have hc1 := hcase1 (by norm_num)
  have hc2 := hcase2 (by norm_num) (by norm_num)
  refine ⟨?_, hc1.2.2.2, hc2.2.2⟩
  have := hc1.2.1
  norm_num at this ⊢
  exact this

/-! ### Claims about the synthesized sale postings (C1, C6) -/

/-- Value of the per-lot security postings, composed-map form. -/
theorem sec_postings_value_sum_comp (acct : String) (pr : Amount) (l : List Lot)
    (h : ∀ x ∈ l, x.cost.isSome) :
    (List.map (postingValue ∘ fun lot =>
        (⟨acct, ⟨-lot.units.number, lot.units.currency⟩, lot.cost, some pr, none⟩ :
          Posting)) l).sum
      = -(costedSum l) := by
  rw [← List.map_map]
  exact sec_postings_value_sum acct pr l h

/-- Claim C1: for every sale synthesized by the IBKR `build_fifo_postings` and by
the finpension `build_sell_postings`, the posting amounts — cash proceeds,
PnL, per-fragment security postings valued through their attached cost
basis (hypotheses: every sold fragment carries one), and the fees posting
when the commission is non-zero — projected into the sale's valuation
currency sum to exactly zero. -/
theorem fifo_sale_balance_invariant
    (cfg : IbkrConfig) (entries : List Entry) (tid : String) (lotDate : Date)
    (shares proceeds price commission : Amount)
    (fpEntries : List Entry) (secA cashA pnlA : String) (fpLotDate : Date)
    (fpShares fpPrice fpProceeds : Amount) (fxRate : Option Amount)
    (h1 : ∀ l ∈ ibkrSoldLots cfg entries tid lotDate shares, l.cost.isSome)
    (h2 : ∀ l ∈ fpSoldLots fpEntries secA fpLotDate fpShares, l.cost.isSome) :
    ((build_fifo_postings cfg entries tid lotDate shares proceeds price
        commission).map postingValue).sum = 0 ∧
    ((build_sell_postings fpEntries secA cashA pnlA fpLotDate fpShares fpPrice
        fpProceeds fxRate).map postingValue).sum = 0 := by
  constructor
  · have hpnl := pnlFold_eq (ibkrSoldLots cfg entries tid lotDate shares)
      (-proceeds.number)
    have hsec := fun pr =>
      sec_postings_value_sum_comp (cfg.parentAccount ++ ":" ++ shares.currency) pr
        (ibkrSoldLots cfg entries tid lotDate shares) h1
    by_cases hc : commission.number = 0
    · simp [build_fifo_postings, hc, postingValue, hpnl, hsec]
    · simp [build_fifo_postings, hc, postingValue, hpnl, hsec]
      ring
  · have hsec := fun pr =>
      sec_postings_value_sum_comp secA pr
        (fpSoldLots fpEntries secA fpLotDate fpShares) h2
    rcases fxRate with _ | fx
    · have hpnlN := pnlFold_eq (fpSoldLots fpEntries secA fpLotDate fpShares)
        (-fpProceeds.number)
      simp [build_sell_postings, postingValue, hpnlN, hsec]
    · have hpnlS := pnlFold_eq (fpSoldLots fpEntries secA fpLotDate fpShares)
        (-(fpProceeds.number * fx.number))
      simp [build_sell_postings, postingValue, hpnlS, hsec]

/-- Concrete importer configuration used by the witness scenarios. -/
def cfg0 : IbkrConfig :=
  ⟨"Assets:IB", "Income:IB", "Assets:Tax", "Expenses:Fees"⟩

/-- Concrete buy transaction: 5 VT at cost 10 USD on day 10, id "1". -/
def buyTxn0 : Transaction :=
  ⟨⟨2, some "1", 10⟩, 10, "Buy VT",
   [⟨"Assets:IB:Cash", ⟨-50, "USD"⟩, none, none, none⟩,
    ⟨"Assets:IB:VT", ⟨5, "VT"⟩, some ⟨10, "USD", 10⟩, none, none⟩,
    ⟨"Expenses:Fees", ⟨0, "USD"⟩, none, none, none⟩]⟩

/-- The sold lots of the witness sale: a 3-unit fragment of the only lot. -/
theorem ibkrSoldLots_witness_eval :
    ibkrSoldLots cfg0 [.txn buyTxn0] "2" 20 ⟨-3, "VT"⟩
      = [⟨some "1", ⟨3, "VT"⟩, some ⟨10, "USD", 10⟩, 10⟩] := by
  norm_num [ibkrSoldLots, ibkrInventory, collectTrades, buyTxn0, cfg0,
    sortLotsByDate, insertByDate, processSells, sell_from_lot, List.filter]

/-- Witness for claim C1: the concrete sale of 3 VT out of a 5-VT lot balances, both
for the IBKR builder (with a non-zero commission) and for the finpension
builder (against an empty history). -/
theorem fifo_sale_balance_invariant_witness :
    ((build_fifo_postings cfg0 [.txn buyTxn0] "2" 20 ⟨-3, "VT"⟩ ⟨36, "USD"⟩
        ⟨12, "USD"⟩ ⟨-1, "USD"⟩).map postingValue).sum = 0 ∧
    ((build_sell_postings [] "A:S" "A:C" "I:P" 0 ⟨-3, "VT"⟩ ⟨1, "CHF"⟩ ⟨3, "CHF"⟩
        none).map postingValue).sum = 0 := by
  refine fifo_sale_balance_invariant cfg0 [.txn buyTxn0] "2" 20 ⟨-3, "VT"⟩
    ⟨36, "USD"⟩ ⟨12, "USD"⟩ ⟨-1, "USD"⟩ [] "A:S" "A:C" "I:P" 0 ⟨-3, "VT"⟩
    ⟨1, "CHF"⟩ ⟨3, "CHF"⟩ none ?_ ?_
  · intro l hl
    rw [ibkrSoldLots_witness_eval] at hl
    simp only [List.mem_singleton] at hl
    subst hl
    rfl
  · intro l hl
    simp [fpSoldLots, fpInventory, fpCollect, sortLotsByDate, processSells,
      sell_from_lot] at hl

/-- Claim C6: the PnL posting (second posting of the emitted list, right after
the cash posting) receives the accumulated value that starts at the
negated proceeds and adds `cost.number * units.number` for every sold
fragment with a known cost basis — i.e. exactly the negation of the
realized PnL `proceeds - recovered cost`.  For finpension, proceeds are
first converted through the fx rate when one is present and the posting
currency follows the fx quote currency (falling back to "CHF"). -/
theorem pnl_accumulator_and_posting
    (cfg : IbkrConfig) (entries : List Entry) (tid : String) (lotDate : Date)
    (shares proceeds price commission : Amount)
    (fpEntries : List Entry) (secA cashA pnlA : String) (fpLotDate : Date)
    (fpShares fpPrice fpProceeds : Amount) (fxRate : Option Amount) :
    (build_fifo_postings cfg entries tid lotDate shares proceeds price
        commission)[1]?
      = some ⟨cfg.incomeAccount ++ ":" ++ shares.currency ++ ":PnL",
          ⟨-(proceeds.number
              - costedSum (ibkrSoldLots cfg entries tid lotDate shares)),
           proceeds.currency⟩, none, none, none⟩ ∧
    (build_sell_postings fpEntries secA cashA pnlA fpLotDate fpShares fpPrice
        fpProceeds fxRate)[1]?
      = some ⟨pnlA,
          ⟨-((match fxRate with
              | some fx => fpProceeds.number * fx.number
              | none => fpProceeds.number)
             - costedSum (fpSoldLots fpEntries secA fpLotDate fpShares)),
           (match fxRate with
            | some fx => fx.currency
            | none => "CHF")⟩, none, none, none⟩ := by
  constructor
  · have hpnl := pnlFold_eq (ibkrSoldLots cfg entries tid lotDate shares)
      (-proceeds.number)
    by_cases hc : commission.number = 0
    · simp [build_fifo_postings, hc, hpnl]
      ring
    · simp [build_fifo_postings, hc, hpnl]
      ring
  · rcases fxRate with _ | fx
    · have hpnlN := pnlFold_eq (fpSoldLots fpEntries secA fpLotDate fpShares)
        (-fpProceeds.number)
      simp [build_sell_postings, hpnlN]
      ring
    · have hpnlS := pnlFold_eq (fpSoldLots fpEntries secA fpLotDate fpShares)
        (-(fpProceeds.number * fx.number))
      simp [build_sell_postings, hpnlS]
      ring

/-! ### The IBKR `extract` pipeline -/

/-- Substring test on character lists (Python `pat in s`). -/
def listContainsSub (pat : List Char) : List Char → Bool
  | [] => pat.isEmpty
  | c :: rest => pat.isPrefixOf (c :: rest) || listContainsSub pat rest

/-- Substring test on strings (Python `pat in s`). -/
def strContainsSub (s pat : String) : Bool :=
  listContainsSub pat.data s.data

/-- Left-to-right non-overlapping replacement on character lists, with a
fuel argument bounding the scan (Python `str.replace` for a non-empty
pattern; each step consumes at least one character, so fuel equal to the
length of the scanned list is always enough). -/
def replaceAux (pat rep : List Char) : Nat → List Char → List Char
  | _, [] => []
  | 0, s => s
  | fuel + 1, c :: rest =>
    if pat.isPrefixOf (c :: rest) then
      rep ++ replaceAux pat rep fuel (List.drop (pat.length - 1) rest)
    else
      c :: replaceAux pat rep fuel rest

/-- Python `s.replace(pat, rep)` for the non-empty patterns the importer
uses (the guard on an empty pattern is unreachable in the source). -/
def strReplace (s pat rep : String) : String :=
  if pat.isEmpty then s else ⟨replaceAux pat.data rep.data s.data.length s.data⟩

/-- One withholding-tax record, the list
`[security, book_date, cashFlow, False, meta]` collected by `extract`. -/
structure TaxRec where
  security : String
  date : Date
  amount : Amount
  matched : Bool
  meta : TxnMeta
deriving DecidableEq, Repr

/-- One raw CSV data row (after the header).  Fields that the source feeds
through `parse(...)` / `D(...)` are `Option`-valued: `none` stands for an
unparsable string (a raised `ValueError`), `some q` for a parsed value
(`D("")` gives `some 0`).  The `CostBasis` column is declared in the
source's `fieldnames` but never read and is omitted. -/
structure Row where
  id : String
  date : Option Date
  typ : String
  currency : String
  proceeds : Option ℚ
  security : String
  amountField : Option ℚ
  tradePrice : Option ℚ
  commission : Option ℚ
  commissionCurrency : String
deriving DecidableEq, Repr

/-- Accumulated per-row state of `extract`: emitted entries, collected
withholding-tax records, and emitted warnings. -/
structure ExtractState where
  entries : List Entry
  taxes : List TaxRec
  warnings : List Warn
deriving DecidableEq, Repr

/-- Placeholder posting standing for the Python `IndexError` that a
`postings[i]` access would raise on a too-short list; unreachable for the
transactions this importer builds (dividend transactions always carry two
postings). -/
def defaultPosting : Posting :=
  ⟨"", ⟨0, ""⟩, none, none, none⟩

/-- The three additional `D(...)` parses shared by the FX/BUY/SELL
branches (commission, amount, trade price): `none` when any of them fails
(the raised `ValueError`). -/
def tradeFields (row : Row) : Option (ℚ × ℚ × ℚ) :=
  match row.commission, row.amountField, row.tradePrice with
  | some c, some a, some t => some (c, a, t)
  | _, _, _ => none

/-- Body of the per-row `try` block of `Importer.extract`: parse the row
and produce the entries, tax records and warnings it contributes, or
`Except.error` when a parse fails (the source's caught `ValueError`). -/
def ibkrRowEntries (cfg : IbkrConfig) (existing entriesSoFar : List Entry)
    (idx : Nat) (row : Row) :
    Except Unit (List Entry × List TaxRec × List Warn) :=
  match row.date with
  | none => .error ()
  | some bookDate =>
    match row.proceeds with
    | none => .error ()
    | some proceedsNum =>
      let meta : TxnMeta := ⟨idx, some row.id, bookDate⟩
      let cashFlow : Amount := ⟨proceedsNum, row.currency⟩
      let security := row.security
      if row.typ = "Deposits/Withdrawals" then
        .ok ([.txn ⟨meta, bookDate,
                if 0 < cashFlow.number then "Deposit" else "Withdrawal",
                [⟨cfg.cashAccount, cashFlow, none, none, none⟩]⟩], [], [])
      else if row.typ = "Dividends" then
        .ok ([.txn ⟨meta, bookDate, "Dividends " ++ security,
                [⟨cfg.cashAccount, cashFlow, none, none, none⟩,
                 ⟨cfg.incomeAccount ++ ":" ++ security ++ ":Dividends",
                  ⟨-cashFlow.number, cashFlow.currency⟩, none, none, none⟩]⟩],
             [], [])
      else if row.typ = "Other Fees" then
        .ok ([.txn ⟨meta, bookDate, "Other",
                [⟨cfg.cashAccount, cashFlow, none, none, none⟩]⟩], [], [])
      else if row.typ = "Withholding Tax" then
        .ok ([], [⟨security, bookDate, cashFlow, false, meta⟩], [])
      else if row.typ = "Broker Interest Received" then
        .ok ([.txn ⟨meta, bookDate, "Interests",
                [⟨cfg.cashAccount, cashFlow, none, none, none⟩,
                 ⟨cfg.interestsAccount, ⟨-cashFlow.number, cashFlow.currency⟩,
                  none, none, none⟩]⟩], [], [])
      else if (row.typ = "BUY" ∨ row.typ = "SELL") ∧ security ≠ ""
          ∧ security.contains (Char.ofNat 46) then
        match tradeFields row with
        | some f =>
          let commission : Amount := ⟨f.1, row.commissionCurrency⟩
          let fxRate : Amount := ⟨f.2.2, security.drop 4⟩
          let base : List Posting :=
            [⟨cfg.cashAccount, ⟨f.2.1, security.take 3⟩, none, some fxRate, none⟩,
             ⟨cfg.cashAccount, ⟨proceedsNum, security.drop 4⟩, none, none, none⟩]
          let ps :=
            if commission.number ≠ 0 then
              base ++ [⟨cfg.cashAccount, commission, none, none, none⟩,
                       ⟨cfg.feesAccount, ⟨-commission.number, commission.currency⟩,
                        none, none, none⟩]
            else base
          .ok ([.txn ⟨meta, bookDate, "FX Exchange " ++ security, ps⟩], [], [])
        | none => .error ()
      else if row.typ = "BUY" then
        match tradeFields row with
        | some f =>
          .ok ([.txn ⟨meta, bookDate, "Buy " ++ security,
                  [⟨cfg.cashAccount, ⟨proceedsNum + f.1, row.currency⟩,
                    none, none, none⟩,
                   ⟨cfg.parentAccount ++ ":" ++ security, ⟨f.2.1, security⟩,
                    some ⟨f.2.2, row.currency, bookDate⟩, none, none⟩,
                   ⟨cfg.feesAccount, ⟨-f.1, row.commissionCurrency⟩,
                    none, none, none⟩]⟩], [], [])
        | none => .error ()
      else if row.typ = "SELL" then
        match tradeFields row with
        | some f =>
          .ok ([.txn ⟨meta, bookDate, "Sell " ++ security,
                  build_fifo_postings cfg (existing ++ entriesSoFar) row.id
                    bookDate ⟨f.2.1, security⟩ cashFlow ⟨f.2.2, row.currency⟩
                    ⟨f.1, row.commissionCurrency⟩⟩], [], [])
        | none => .error ()
      else
        .ok ([], [], [.unsupportedType row.typ idx])

/-- One iteration of the row loop of `Importer.extract`: append this row's
contributions, or — when parsing raised — append the caught-and-warned
`parseError` and continue. -/
def ibkrProcessRow (cfg : IbkrConfig) (existing : List Entry)
    (st : ExtractState) (idx : Nat) (row : Row) : ExtractState :=
  match ibkrRowEntries cfg existing st.entries idx row with
  | .ok res => ⟨st.entries ++ res.1, st.taxes ++ res.2.1, st.warnings ++ res.2.2⟩
  | .error _ => { st with warnings := st.warnings ++ [.parseError idx] }

/-- The row loop `for index, row in enumerate(rows, start=2)`. -/
def ibkrProcessRows (cfg : IbkrConfig) (existing : List Entry)
    (st : ExtractState) (idx : Nat) : List Row → ExtractState
  | [] => st
  | r :: rs => ibkrProcessRows cfg existing (ibkrProcessRow cfg existing st idx r)
      (idx + 1) rs

/-- First tax record matching a security and date, together with the tax
list after setting that record's `matched` flag and the record's previous
flag value (the source warns on a second match of an already-consumed
record but rebuilds the dividend either way). -/
def matchTax (security : String) (d : Date) :
    List TaxRec → Option (TaxRec × List TaxRec × Bool)
  | [] => none
  | tax :: rest =>
    if tax.security = security ∧ tax.date = d then
      some (tax, { tax with matched := true } :: rest, tax.matched)
    else
      match matchTax security d rest with
      | some res => some (res.1, tax :: res.2.1, res.2.2)
      | none => none

/-- The dividend rebuild of the direct-match pass: new cash posting with
the tax amount added to the original cash flow (`postings[0]`), the
original income posting (`postings[1]`) kept, and a tax posting for the
negated tax amount against the configured tax account (the source adds no
currency suffix to it). -/
def rebuildDividend (cfg : IbkrConfig) (t : Transaction) (tax : TaxRec) :
    Transaction :=
  { t with postings :=
      [⟨cfg.cashAccount,
        ⟨tax.amount.number + (t.postings.getD 0 defaultPosting).units.number,
         tax.amount.currency⟩, none, none, none⟩,
       t.postings.getD 1 defaultPosting,
       ⟨cfg.taxAccount, ⟨-tax.amount.number, tax.amount.currency⟩,
        none, none, none⟩] }

/-- Direct-match pass, one entry: dividend transactions (narration
containing "Dividends", security recovered by stripping "Dividends ") are
merged with the first tax record matching security and date; a missing
record yields a warning, a record that was already consumed yields a
double-match warning. -/
def pass1Step (cfg : IbkrConfig) (taxes : List TaxRec) :
    Entry → Entry × List TaxRec × List Warn
  | .other => (.other, taxes, [])
  | .txn t =>
    if strContainsSub t.narration "Dividends" then
      let security := strReplace t.narration "Dividends " ""
      match matchTax security t.date taxes with
      | some res =>
        (.txn (rebuildDividend cfg t res.1), res.2.1,
         if res.2.2 then [.doubleMatch security t.date] else [])
      | none => (.txn t, taxes, [.missingTax security t.date])
    else (.txn t, taxes, [])

/-- Direct-match pass over all emitted entries (the loop `for index, entry
in enumerate(entries)` with in-place replacement of `entries[index]`). -/
def pass1 (cfg : IbkrConfig) : List Entry → List TaxRec →
    List Entry × List TaxRec × List Warn
  | [], taxes => ([], taxes, [])
  | e :: es, taxes =>
    let r1 := pass1Step cfg taxes e
    let r2 := pass1 cfg es r1.2.1
    (r1.1 :: r2.1, r2.2.1, r1.2.2 ++ r2.2.2)

/-- Units of the last posting on the configured tax account of a
transaction (the source's loop leaves `value` holding the last match), if
any. -/
def lastTaxPostingUnits (cfg : IbkrConfig) (t : Transaction) : Option Amount :=
  ((t.postings.filter (fun p => p.account == cfg.taxAccount)).getLast?).map
    (fun p => p.units)

/-- The balancing transaction synthesized by the recalculation pass for a
reimbursement record `tax`, its negative counterpart `mtax` and the
original dividend's date: dated at the reimbursement's date, cash posting
combining the two tax amounts, a zero-valued dividend-income posting, and
a tax posting for the negated combined amount carrying an
`effective_date` metadata entry pointing at the original dividend. -/
def synthTxn (cfg : IbkrConfig) (tax mtax : TaxRec) (security : String)
    (divDate : Date) : Transaction :=
  let cashBalance : Amount :=
    ⟨tax.amount.number + mtax.amount.number, tax.amount.currency⟩
  ⟨tax.meta, tax.date, "Dividends " ++ security,
   [⟨cfg.cashAccount, cashBalance, none, none, none⟩,
    ⟨cfg.incomeAccount ++ ":" ++ security ++ ":Dividends",
     ⟨0, tax.amount.currency⟩, none, none, none⟩,
    ⟨cfg.taxAccount, ⟨-cashBalance.number, cashBalance.currency⟩,
     none, none, some divDate⟩]⟩

/-- The original-dividend scan of the recalculation pass for one pair of
tax records: every dividend transaction for the same security whose last
tax posting equals the reimbursement amount yields one synthesized
balancing transaction.  The scan walks the entries emitted so far followed
by the existing entries (`itertools.chain(entries, existing_entries)`); the
embedding scans the snapshot taken when the pair is processed, whereas the
Python chain would additionally observe entries it appends itself during
this same scan — observable only when a synthesized transaction is itself a
matching dividend, i.e. when the combined amount equals the negated
reimbursement, a case in which the Python loop appends without bound. -/
def scanDividends (cfg : IbkrConfig) (snapshot : List Entry)
    (tax mtax : TaxRec) : List Transaction :=
  snapshot.filterMap (fun e =>
    match e with
    | .other => none
    | .txn t =>
      if strContainsSub t.narration "Dividends" then
        let security := strReplace t.narration "Dividends " ""
        if security = tax.security then
          match lastTaxPostingUnits cfg t with
          | some v =>
            if v = tax.amount then some (synthTxn cfg tax mtax security t.date)
            else none
          | none => none
        else none
      else none)

/-- Recalculation pass: for every unconsumed positive (reimbursement)
record and every unconsumed negative record for the same security, scan for
original dividends and append the synthesized balancing transactions,
recording the indexes of both records per synthesized transaction (the
source's `indexes` list). -/
def pass2 (cfg : IbkrConfig) (existing : List Entry) (unmatched : List TaxRec)
    (entries0 : List Entry) : List Entry × List Nat :=
  unmatched.enum.foldl
    (fun acc it =>
      if 0 < it.2.amount.number then
        unmatched.enum.foldl
          (fun acc2 jt =>
            if jt.2.security = it.2.security ∧ jt.2.amount.number < 0 then
              let synths := scanDividends cfg (acc2.1 ++ existing) it.2 jt.2
              (acc2.1 ++ synths.map Entry.txn,
               synths.foldl (fun ix _ => ix ++ [it.1, jt.1]) acc2.2)
            else acc2)
          acc
      else acc)
    (entries0, [])

/-- End-of-run reporting: every unconsumed tax record whose index was never
recorded by the recalculation pass yields an unmatched-withholding-tax
warning. -/
def unmatchedTaxWarns (unmatched : List TaxRec) (indexes : List Nat) :
    List Warn :=
  unmatched.enum.filterMap
    (fun it =>
      if it.1 ∈ indexes then none
      else some (.unmatchedTax it.2.security it.2.date it.2.amount))

/-- IBKR `Importer.extract`: the value `none` for the file stands for a missing
file (the caught `FileNotFoundError`: warn and return the empty entry
list); otherwise run the row loop over the data rows (line numbers starting
at 2), then the direct-match pass, then the recalculation pass over the
records left unconsumed, then report still-unmatched records.  Returns the
entry list together with all emitted warnings. -/
def ibkrExtract (cfg : IbkrConfig) (file : Option (List Row))
    (existing : List Entry) : List Entry × List Warn :=
  match file with
  | none => ([], [.fileNotFound])
  | some rows =>
    let st := ibkrProcessRows cfg existing ⟨[], [], []⟩ 2 rows
    let p1 := pass1 cfg st.entries st.taxes
    let unmatched := p1.2.1.filter (fun t => !t.matched)
    let p2 := pass2 cfg existing unmatched p1.1
    (p2.1, st.warnings ++ p1.2.2 ++ unmatchedTaxWarns unmatched p2.2)

/-! ### Concrete scenarios for the withholding-tax reconciler (C4, C9) -/

/-- Dividend row: 100 CHF for security TEST on day 100 (empty numeric CSV
fields parse to zero under `D`). -/
def divRow0 : Row :=
  ⟨"10000000001", some 100, "Dividends", "CHF", some 100, "TEST",
   some 0, some 0, some 0, ""⟩

/-- Withholding-tax row: -15 CHF for TEST on day 100. -/
def taxRow0 : Row :=
  ⟨"10000000002", some 100, "Withholding Tax", "CHF", some (-15), "TEST",
   some 0, some 0, some 0, ""⟩

/-- Reimbursement withholding-tax row: +15 CHF for TEST on day 110. -/
def taxPos0 : Row :=
  ⟨"10000000003", some 110, "Withholding Tax", "CHF", some 15, "TEST",
   some 0, some 0, some 0, ""⟩

/-- Recalculated withholding-tax row: -15 CHF for TEST on day 111. -/
def taxNeg0 : Row :=
  ⟨"10000000004", some 111, "Withholding Tax", "CHF", some (-15), "TEST",
   some 0, some 0, some 0, ""⟩

/-- The merged dividend transaction the direct-match pass produces for
`divRow0` + `taxRow0` under `cfg0`. -/
def mergedTxn0 : Transaction :=
  ⟨⟨2, some "10000000001", 100⟩, 100, "Dividends TEST",
   [⟨"Assets:IB:Cash", ⟨85, "CHF"⟩, none, none, none⟩,
    ⟨"Income:IB:TEST:Dividends", ⟨-100, "CHF"⟩, none, none, none⟩,
    ⟨"Assets:Tax", ⟨15, "CHF"⟩, none, none, none⟩]⟩

/-- The balancing transaction the recalculation pass synthesizes for the
`taxPos0`/`taxNeg0` pair. -/
def recalcTxn0 : Transaction :=
  ⟨⟨4, some "10000000003", 110⟩, 110, "Dividends TEST",
   [⟨"Assets:IB:Cash", ⟨0, "CHF"⟩, none, none, none⟩,
    ⟨"Income:IB:TEST:Dividends", ⟨0, "CHF"⟩, none, none, none⟩,
    ⟨"Assets:Tax", ⟨0, "CHF"⟩, none, none, some 100⟩]⟩

/-- Evaluation of `extract` on the two-row direct-match scenario (shared by
the theorems about claim C4). -/
theorem extract_direct_match_eval :
    ibkrExtract cfg0 (some [divRow0, taxRow0]) [] = ([.txn mergedTxn0], []) := by
  have ha : "Dividends " ++ "TEST" = "Dividends TEST" := by decide
  have hc : strContainsSub "Dividends TEST" "Dividends" = true := by decide
  have hr : strReplace "Dividends TEST" "Dividends " "" = "TEST" := by decide
  norm_num [ibkrExtract, ibkrProcessRows, ibkrProcessRow, ibkrRowEntries,
    divRow0, taxRow0, cfg0, IbkrConfig.cashAccount, IbkrConfig.interestsAccount,
    pass1, pass1Step, matchTax, rebuildDividend, defaultPosting, pass2,
    unmatchedTaxWarns, ha, hc, hr, mergedTxn0]
  exact ⟨by decide, by decide⟩

/-- Claim C4, counterexample to the claim as stated: in the direct-match scenario
(dividend of 100 CHF and tax of -15 CHF for TEST on the same date, tax
account configured as "Assets:Tax") the merged transaction's cash posting
is indeed 85 CHF, but no posting is booked against the currency-suffixed
account "Assets:Tax:CHF", and no posting carries -15: the tax posting is
+15 CHF (the negated tax amount) on the configured account verbatim. -/
theorem tax_direct_match_counterexample :
    (ibkrExtract cfg0 (some [divRow0, taxRow0]) []).1 = [.txn mergedTxn0] ∧
    (mergedTxn0.postings.getD 0 defaultPosting).units = ⟨85, "CHF"⟩ ∧
    (∀ p ∈ mergedTxn0.postings, p.account ≠ cfg0.taxAccount ++ ":CHF") ∧
    (∀ p ∈ mergedTxn0.postings, p.units.number ≠ -15) := by
  refine ⟨by rw [extract_direct_match_eval], by norm_num [mergedTxn0, defaultPosting],
    ?_, ?_⟩
  · intro p hp
    simp only [mergedTxn0, List.mem_cons, List.not_mem_nil, or_false] at hp
    rcases hp with rfl | rfl | rfl <;> decide
  · intro p hp
    simp only [mergedTxn0, List.mem_cons, List.not_mem_nil, or_false] at hp
    rcases hp with rfl | rfl | rfl <;> norm_num

/-- Claim C4 as amended: the dividend of 100 CHF and the withholding tax of
-15 CHF for TEST with exactly matching date merge into one transaction
whose cash posting equals 85 CHF and whose tax posting is +15 CHF (the
negated tax amount), booked against the importer's configured tax account
verbatim, with the dividend-income posting preserved; no warnings are
emitted. -/
theorem tax_direct_match_merged :
    (ibkrExtract cfg0 (some [divRow0, taxRow0]) []).1 = [.txn mergedTxn0] ∧
    mergedTxn0.postings =
      [⟨cfg0.cashAccount, ⟨85, "CHF"⟩, none, none, none⟩,
       ⟨"Income:IB:TEST:Dividends", ⟨-100, "CHF"⟩, none, none, none⟩,
       ⟨cfg0.taxAccount, ⟨15, "CHF"⟩, none, none, none⟩] ∧
    (ibkrExtract cfg0 (some [divRow0, taxRow0]) []).2 = [] := by
  refine ⟨by rw [extract_direct_match_eval], ?_, by rw [extract_direct_match_eval]⟩
  norm_num [mergedTxn0, cfg0, IbkrConfig.cashAccount]
  decide

/-- Concrete end-to-end run of `extract` on the recalculation scenario
(supporting evidence for the reconciler embedding): the dividend of day
100 is merged against its -15 CHF tax, and the unconsumed +15 and -15 pair
yields exactly the synthesized balancing transaction `recalcTxn0`. -/
theorem tax_recalculation_concrete_run :
    (ibkrExtract cfg0 (some [divRow0, taxRow0, taxPos0, taxNeg0]) []).1
      = [.txn mergedTxn0, .txn recalcTxn0] ∧
    recalcTxn0.date = 110 ∧ taxPos0.date = some 110 ∧
    (recalcTxn0.postings.getD 0 defaultPosting).units.number = 15 + -15 ∧
    (recalcTxn0.postings.getD 1 defaultPosting).units.number = 0 ∧
    (recalcTxn0.postings.getD 2 defaultPosting).effectiveDate = some 100 := by
  have ha : "Dividends " ++ "TEST" = "Dividends TEST" := by decide
  have hc : strContainsSub "Dividends TEST" "Dividends" = true := by decide
  have hr : strReplace "Dividends TEST" "Dividends " "" = "TEST" := by decide
  refine ⟨?_, rfl, rfl, by norm_num [recalcTxn0, defaultPosting],
    by norm_num [recalcTxn0, defaultPosting], rfl⟩
  norm_num [ibkrExtract, ibkrProcessRows, ibkrProcessRow, ibkrRowEntries,
    divRow0, taxRow0, taxPos0, taxNeg0, cfg0, IbkrConfig.cashAccount,
    IbkrConfig.interestsAccount, pass1, pass1Step, matchTax, rebuildDividend,
    defaultPosting, pass2, unmatchedTaxWarns, scanDividends,
    lastTaxPostingUnits, synthTxn, List.enum, List.enumFrom, List.filter,
    ha, hc, hr, mergedTxn0, recalcTxn0]
  exact ⟨by decide, by decide⟩

/-- Claim C10: calling `extract` on a missing file returns the empty entry list
after emitting the file-not-found warning, instead of propagating
`FileNotFoundError` (the embedding of the caught exception). -/
theorem missing_file_returns_empty (cfg : IbkrConfig) (existing : List Entry) :
    ibkrExtract cfg none existing = ([], [.fileNotFound]) := rfl

/-- Malformed row (unparsable date), modelled on the repository's own
`test_extract_invalid_date` fixture. -/
def badRow0 : Row :=
  ⟨"3001", none, "BUY", "USD", some (-563.10), "VEA", some 12, some 46.925,
   some (-0.35), "USD"⟩

/-- Well-formed deposit row: 500 CHF on day 50. -/
def depRow0 : Row :=
  ⟨"2001", some 50, "Deposits/Withdrawals", "CHF", some 500, "",
   some 0, some 0, some 0, ""⟩

/-- The deposit transaction `depRow0` yields when it sits on CSV line
`n`. -/
def depTxnAt (n : Nat) : Transaction :=
  ⟨⟨n, some "2001", 50⟩, 50, "Deposit",
   [⟨"Assets:IB:Cash", ⟨500, "CHF"⟩, none, none, none⟩]⟩

/-- Claim C7, counterexample to the claim as stated: a file whose first data row
has an unparsable date is not fatal — `extract` returns the entry of the
following well-formed row (so the invocation neither raises nor returns an
empty result) together with the parse-error warning for row 2. -/
theorem malformed_row_not_fatal :
    (ibkrExtract cfg0 (some [badRow0, depRow0]) []).1 = [.txn (depTxnAt 3)] ∧
    (ibkrExtract cfg0 (some [badRow0, depRow0]) []).2 = [.parseError 2] := by
  have hDep : strContainsSub "Deposit" "Dividends" = false := by decide
  norm_num [ibkrExtract, ibkrProcessRows, ibkrProcessRow, ibkrRowEntries,
    badRow0, depRow0, depTxnAt, cfg0, IbkrConfig.cashAccount, pass1, pass1Step,
    hDep, pass2, unmatchedTaxWarns, defaultPosting]
  decide

/-- Claim C7 as amended: a row whose date or proceeds fails to parse contributes
exactly the caught-and-warned parse error for its line, and extraction
continues with the remaining rows from the same state (no abort, no lost
suffix). -/
theorem malformed_row_skipped (cfg : IbkrConfig) (ex : List Entry)
    (st : ExtractState) (idx : Nat) (r : Row) (rs : List Row)
    (h : r.date = none ∨ r.proceeds = none) :
    ibkrProcessRows cfg ex st idx (r :: rs)
      = ibkrProcessRows cfg ex
          { st with warnings := st.warnings ++ [.parseError idx] } (idx + 1) rs := by
  have hrow : ibkrProcessRow cfg ex st idx r
      = { st with warnings := st.warnings ++ [.parseError idx] } := by
    rcases h with h | h
    · simp [ibkrProcessRow, ibkrRowEntries, h]
    · cases hd : r.date with
      | none => simp [ibkrProcessRow, ibkrRowEntries, hd]
      | some d => simp [ibkrProcessRow, ibkrRowEntries, hd, h]
  simp only [ibkrProcessRows, hrow]

/-- Witness for claim C7: the concrete malformed row followed by the deposit row. -/
theorem malformed_row_skipped_witness :
    ibkrProcessRows cfg0 [] ⟨[], [], []⟩ 2 [badRow0, depRow0]
      = ibkrProcessRows cfg0 [] ⟨[], [], [.parseError 2]⟩ 3 [depRow0] := by
  have h := malformed_row_skipped cfg0 [] ⟨[], [], []⟩ 2 badRow0 [depRow0]
    (Or.inl rfl)
  simpa using h

/-- Row processing consults the existing-entries history (and the entries
emitted so far) only in the plain SELL branch, where the FIFO builder
replays it; every other branch is a function of the row alone. -/
theorem rowEntries_no_sell (cfg : IbkrConfig) (ex ex' es es' : List Entry)
    (idx : Nat) (r : Row) (h : r.typ ≠ "SELL") :
    ibkrRowEntries cfg ex es idx r = ibkrRowEntries cfg ex' es' idx r := by
  cases hd : r.date with
  | none => simp only [ibkrRowEntries, hd]
  | some d =>
    cases hp : r.proceeds with
    | none => simp only [ibkrRowEntries, hd, hp]
    | some p =>
      simp only [ibkrRowEntries, hd, hp]
      split_ifs <;> first | rfl | exact absurd (by assumption) h

/-- Only the Withholding Tax branch contributes tax records. -/
theorem rowEntries_taxes_nil (cfg : IbkrConfig) (ex es : List Entry)
    (idx : Nat) (r : Row) (h : r.typ ≠ "Withholding Tax") :
    ∀ res, ibkrRowEntries cfg ex es idx r = .ok res → res.2.1 = [] := by
  intro res hres
  cases hd : r.date <;> rw [ibkrRowEntries, hd] at hres
  · simp at hres
  · cases hp : r.proceeds <;> rw [hp] at hres
    · simp at hres
    · simp only at hres
      split_ifs at hres
      all_goals try (cases ht : tradeFields r <;> rw [ht] at hres)
      all_goals try (simp only [Except.ok.injEq] at hres)
      all_goals first | (subst hres; rfl) | simp_all

/-- On a file with no SELL rows, the whole row loop is independent of the
existing-entries history. -/
theorem processRows_no_sell (cfg : IbkrConfig) (ex ex' : List Entry)
    (st : ExtractState) (idx : Nat) (rows : List Row)
    (h : ∀ r ∈ rows, r.typ ≠ "SELL") :
    ibkrProcessRows cfg ex st idx rows = ibkrProcessRows cfg ex' st idx rows := by
  induction rows generalizing st idx with
  | nil => rfl
  | cons r rs ih =>
    have hrow : ibkrProcessRow cfg ex st idx r = ibkrProcessRow cfg ex' st idx r := by
      unfold ibkrProcessRow
      rw [rowEntries_no_sell cfg ex ex' st.entries st.entries idx r
        (h r (List.mem_cons_self r rs))]
    simp only [ibkrProcessRows, hrow]
    exact ih _ _ (fun r2 hr2 => h r2 (List.mem_cons_of_mem r hr2))

/-- A non-Withholding-Tax row leaves the collected tax records unchanged. -/
theorem processRow_taxes (cfg : IbkrConfig) (ex : List Entry)
    (st : ExtractState) (idx : Nat) (r : Row)
    (h : r.typ ≠ "Withholding Tax") :
    (ibkrProcessRow cfg ex st idx r).taxes = st.taxes := by
  unfold ibkrProcessRow
  cases hres : ibkrRowEntries cfg ex st.entries idx r with
  | error e => rfl
  | ok res => simp [rowEntries_taxes_nil cfg ex st.entries idx r h res hres]

/-- On a file with no Withholding Tax rows, the row loop collects no tax
records. -/
theorem processRows_taxes (cfg : IbkrConfig) (ex : List Entry)
    (st : ExtractState) (idx : Nat) (rows : List Row)
    (h : ∀ r ∈ rows, r.typ ≠ "Withholding Tax") :
    (ibkrProcessRows cfg ex st idx rows).taxes = st.taxes := by
  induction rows generalizing st idx with
  | nil => rfl
  | cons r rs ih =>
    simp only [ibkrProcessRows]
    rw [ih _ _ (fun r2 hr2 => h r2 (List.mem_cons_of_mem r hr2)),
      processRow_taxes cfg ex st idx r (h r (List.mem_cons_self r rs))]

/-- The direct-match pass with no collected tax records leaves every entry
unchanged (each dividend merely draws a missing-tax warning). -/
theorem pass1_no_taxes (cfg : IbkrConfig) (es : List Entry) :
    (pass1 cfg es []).1 = es ∧ (pass1 cfg es []).2.1 = [] := by
  induction es with
  | nil => exact ⟨rfl, rfl⟩
  | cons e es ih =>
    have hstep : (pass1Step cfg [] e).1 = e ∧ (pass1Step cfg [] e).2.1 = [] := by
      cases e with
      | other => exact ⟨rfl, rfl⟩
      | txn t =>
        by_cases hc : strContainsSub t.narration "Dividends" = true
        · simp [pass1Step, hc, matchTax]
        · simp [pass1Step, hc]
    simp only [pass1, hstep.1, hstep.2, ih.1, ih.2, and_self]

/-- Claim C3, counterexample to the claim as stated: re-running `extract` on the
one-deposit-row file, with the existing-entries history containing the
first run's output, re-emits the same (non-empty) entry list instead of
zero additional entries — per-row emission never consults the
existing-entries history; the `trans_id` dedup guards only the
lot-inventory replay inside `build_fifo_postings`. -/
theorem extract_rerun_reemits :
    (ibkrExtract cfg0 (some [depRow0]) ((ibkrExtract cfg0 (some [depRow0]) []).1)).1
      = [.txn (depTxnAt 2)] ∧
    ([Entry.txn (depTxnAt 2)] : List Entry) ≠ [] := by
  have hDep : strContainsSub "Deposit" "Dividends" = false := by decide
  refine ⟨?_, by decide⟩
  norm_num [ibkrExtract, ibkrProcessRows, ibkrProcessRow, ibkrRowEntries,
    depRow0, depTxnAt, cfg0, IbkrConfig.cashAccount, pass1, pass1Step, hDep,
    pass2, unmatchedTaxWarns]
  decide

/-- Claim C3 as amended: re-running extraction does not produce zero additional
entries; instead, for files without SELL and Withholding Tax rows the
output is entirely independent of the existing-entries history, so the
second run (with the first run's output added to that history) reproduces
exactly the first run's entry list and warnings. -/
theorem extract_rerun_reproduces (cfg : IbkrConfig) (rows : List Row)
    (ex : List Entry)
    (hsell : ∀ r ∈ rows, r.typ ≠ "SELL")
    (hwt : ∀ r ∈ rows, r.typ ≠ "Withholding Tax") :
    ibkrExtract cfg (some rows) ((ibkrExtract cfg (some rows) ex).1 ++ ex)
      = ibkrExtract cfg (some rows) ex := by
  suffices hgen : ∀ ex1 ex2 : List Entry,
      ibkrExtract cfg (some rows) ex1 = ibkrExtract cfg (some rows) ex2 by
    exact hgen _ _
  intro ex1 ex2
  have hst := processRows_no_sell cfg ex1 ex2 ⟨[], [], []⟩ 2 rows hsell
  have htax := processRows_taxes cfg ex2 ⟨[], [], []⟩ 2 rows hwt
  simp only [ibkrExtract, hst]
  rw [htax]
  have hp1 := pass1_no_taxes cfg (ibkrProcessRows cfg ex2 ⟨[], [], []⟩ 2 rows).entries
  rw [hp1.2]
  simp [pass2]

/-- Witness for claim C3: the deposit-row file satisfies both row-type hypotheses and
the rerun reproduces the first run. -/
theorem extract_rerun_reproduces_witness :
    ibkrExtract cfg0 (some [depRow0]) ((ibkrExtract cfg0 (some [depRow0]) []).1 ++ [])
      = ibkrExtract cfg0 (some [depRow0]) [] := by
  refine extract_rerun_reproduces cfg0 [depRow0] [] ?_ ?_ <;>
    · intro r hr
      simp only [List.mem_singleton] at hr
      subst hr
      decide
